import Mathlib

/-!
Verification of the Shasper consensus core against its sources: the Casper FFG
justification/finalization processor (beacon/src/components/mod.rs), the SSZ
fixed bitvector codec (utils/ssz/src/fixed.rs), beacon block header derivation
(beacon/src/block.rs), the derived SSZ enum codec (util/ssz-derive/tests), and
the RocksDB backend opening logic (blockchain/common/rocksdb/src/backend.rs).

Rust u64 arithmetic is modelled on Nat with explicit reduction modulo 2^64
where the source multiplies or adds in u64 (release-mode wrapping semantics).
Fallible Rust functions returning Result are modelled with Except; functions
that mutate self and may exit early via the question-mark operator return the
state as mutated at the point of the early exit, paired with the error.
-/

set_option linter.unusedVariables false

namespace Shasper

/-- Width modulus of the Rust u64 type. -/
def u64Mod : Nat := 2 ^ 64

/-- State of the FFG justification processor, from components/mod.rs.
The justification_bits field is a Rust [bool; 4]; it is modelled as a
List Bool whose length is 4 for every state the Rust type can represent. -/
structure JustificationProcessor (C : Type) where
  justification_bits : List Bool
  current_justified_checkpoint : C
  previous_justified_checkpoint : C
  finalized_checkpoint : C
deriving DecidableEq

/-- Registry capability from components/mod.rs: total_active_balance returns a
u64 and attesting_target_balance may fail with an error of type E. -/
structure Registry (C E : Type) where
  total_active_balance : Nat
  attesting_target_balance : C → Except E Nat

/-- Vote test of advance_epoch: attesting * 3 >= total * 2, both products in
u64 (wrapping on overflow). -/
def voteTest (attesting total : Nat) : Bool :=
  decide ((attesting * 3) % u64Mod ≥ (total * 2) % u64Mod)

/-- Finalization phase of advance_epoch (the block below the comment
"Process finalizations" in components/mod.rs): the four FFG rules applied in
order against the already-updated bits and the snapshotted old justified
checkpoints; epoch additions are u64 additions. -/
def processFinalizations {C : Type} (epoch : C → Nat)
    (old_previous_justified_checkpoint old_current_justified_checkpoint : C)
    (current_epoch : Nat) (s3 : JustificationProcessor C) :
    JustificationProcessor C :=
  let bits := s3.justification_bits
  let s4 :=
    if ((bits.drop 1).take 3).all (fun v => v) &&
        ((epoch old_previous_justified_checkpoint + 3) % u64Mod == current_epoch) then
      { s3 with finalized_checkpoint := old_previous_justified_checkpoint }
    else s3
  let s5 :=
    if ((bits.drop 1).take 2).all (fun v => v) &&
        ((epoch old_previous_justified_checkpoint + 2) % u64Mod == current_epoch) then
      { s4 with finalized_checkpoint := old_previous_justified_checkpoint }
    else s4
  let s6 :=
    if (bits.take 3).all (fun v => v) &&
        ((epoch old_current_justified_checkpoint + 2) % u64Mod == current_epoch) then
      { s5 with finalized_checkpoint := old_current_justified_checkpoint }
    else s5
  let s7 :=
    if (bits.take 2).all (fun v => v) &&
        ((epoch old_current_justified_checkpoint + 1) % u64Mod == current_epoch) then
      { s6 with finalized_checkpoint := old_current_justified_checkpoint }
    else s6
  s7

/-- Shallow embedding of JustificationProcessor::advance_epoch, from
components/mod.rs lines 27-91.  The Rust function mutates self and propagates
registry errors with the question-mark operator, so the embedding returns the
state as of the early exit together with the optional error. -/
def advance_epoch {C E : Type} (epoch : C → Nat)
    (s0 : JustificationProcessor C)
    (previous_checkpoint current_checkpoint : C)
    (registry : Registry C E) :
    JustificationProcessor C × Option E :=
  let current_epoch := epoch current_checkpoint
  let old_previous_justified_checkpoint := s0.previous_justified_checkpoint
  let old_current_justified_checkpoint := s0.current_justified_checkpoint
  -- Process justifications: shift previous_justified_checkpoint, rotate the
  -- bits (for a 4-element array the slice copy gives [false, old0, old1, old2])
  let s1 : JustificationProcessor C :=
    { s0 with
      previous_justified_checkpoint := s0.current_justified_checkpoint,
      justification_bits := false :: s0.justification_bits.take 3 }
  match registry.attesting_target_balance previous_checkpoint with
  | .error e => (s1, some e)
  | .ok previous_balance =>
    let s2 :=
      if voteTest previous_balance registry.total_active_balance then
        { s1 with
          current_justified_checkpoint := previous_checkpoint,
          justification_bits := s1.justification_bits.set 1 true }
      else s1
    match registry.attesting_target_balance current_checkpoint with
    | .error e => (s2, some e)
    | .ok current_balance =>
      let s3 :=
        if voteTest current_balance registry.total_active_balance then
          { s2 with
            current_justified_checkpoint := current_checkpoint,
            justification_bits := s2.justification_bits.set 0 true }
        else s2
      (processFinalizations epoch old_previous_justified_checkpoint
        old_current_justified_checkpoint current_epoch s3, none)

/-- Modelled from the spec: the FFG processor is created with a genesis
checkpoint, all justification bits false and all three checkpoints equal
(the constructor itself is not among the provided sources). -/
def genesisProcessor {C : Type} (c : C) : JustificationProcessor C :=
  ⟨[false, false, false, false], c, c, c⟩

/-- Registry behaviour in which the previous-epoch vote test fails and the
current-epoch vote test passes, both lookups succeeding. -/
def OnlyCurrentPasses {C E : Type} (registry : Registry C E)
    (previous_checkpoint current_checkpoint : C) : Prop :=
  (∃ a, registry.attesting_target_balance previous_checkpoint = .ok a ∧
    voteTest a registry.total_active_balance = false) ∧
  (∃ a, registry.attesting_target_balance current_checkpoint = .ok a ∧
    voteTest a registry.total_active_balance = true)

/-- Registry behaviour in which both vote tests pass, both lookups
succeeding. -/
def BothPass {C E : Type} (registry : Registry C E)
    (previous_checkpoint current_checkpoint : C) : Prop :=
  (∃ a, registry.attesting_target_balance previous_checkpoint = .ok a ∧
    voteTest a registry.total_active_balance = true) ∧
  (∃ a, registry.attesting_target_balance current_checkpoint = .ok a ∧
    voteTest a registry.total_active_balance = true)

/-- Iterated advance_epoch over a list of (previous, current, registry) calls,
keeping the state component of each call. -/
def advanceRun {C E : Type} (epoch : C → Nat) (s0 : JustificationProcessor C)
    (calls : List (C × C × Registry C E)) : JustificationProcessor C :=
  calls.foldl (fun s call => (advance_epoch epoch s call.1 call.2.1 call.2.2).1) s0

/-- Justification bits reached after k only-current-vote epochs from genesis:
bit i is set iff i < k (capped at the four stored bits). -/
def bitsProfile (k : Nat) : List Bool :=
  [decide (1 ≤ k), decide (2 ≤ k), decide (3 ≤ k), decide (4 ≤ k)]

end Shasper

namespace Shasper

/-- The finalization phase only ever assigns finalized_checkpoint: the
justification bits are untouched. -/
theorem processFinalizations_justification_bits {C : Type} (epoch : C → Nat)
    (op oc : C) (ce : Nat) (s : JustificationProcessor C) :
    (processFinalizations epoch op oc ce s).justification_bits =
      s.justification_bits := by
  simp only [processFinalizations]
  split_ifs <;> rfl

/-- The finalization phase leaves current_justified_checkpoint unchanged. -/
theorem processFinalizations_current_justified {C : Type} (epoch : C → Nat)
    (op oc : C) (ce : Nat) (s : JustificationProcessor C) :
    (processFinalizations epoch op oc ce s).current_justified_checkpoint =
      s.current_justified_checkpoint := by
  simp only [processFinalizations]
  split_ifs <;> rfl

/-- The finalization phase leaves previous_justified_checkpoint unchanged. -/
theorem processFinalizations_previous_justified {C : Type} (epoch : C → Nat)
    (op oc : C) (ce : Nat) (s : JustificationProcessor C) :
    (processFinalizations epoch op oc ce s).previous_justified_checkpoint =
      s.previous_justified_checkpoint := by
  simp only [processFinalizations]
  split_ifs <;> rfl

/-- One advance_epoch call in which the previous-epoch vote fails and the
current-epoch vote passes maps bits [b0, b1, b2, b3] to [true, b0, b1, b2]. -/
theorem advance_only_current_step {C E : Type} (epoch : C → Nat)
    (s : JustificationProcessor C) (prev cur : C) (reg : Registry C E)
    (h : OnlyCurrentPasses reg prev cur) (b0 b1 b2 b3 : Bool)
    (hb : s.justification_bits = [b0, b1, b2, b3]) :
    (advance_epoch epoch s prev cur reg).1.justification_bits =
      [true, b0, b1, b2] := by
  obtain ⟨⟨ap, hap, hvap⟩, ⟨ac, hac, hvac⟩⟩ := h
  simp [advance_epoch, hap, hvap, hac, hvac, hb,
    processFinalizations_justification_bits]

/-- One advance_epoch call from all-false justification bits leaves
finalized_checkpoint untouched whenever the previous-epoch vote fails and the
current-epoch vote passes: the rotated-and-voted bits are [true,false,false,false],
so no finalization rule condition holds. -/
theorem advance_only_current_fin_zero {C E : Type} (epoch : C → Nat)
    (s : JustificationProcessor C) (prev cur : C) (reg : Registry C E)
    (h : OnlyCurrentPasses reg prev cur)
    (hb : s.justification_bits = [false, false, false, false]) :
    (advance_epoch epoch s prev cur reg).1.finalized_checkpoint =
      s.finalized_checkpoint := by
  obtain ⟨⟨ap, hap, hvap⟩, ⟨ac, hac, hvac⟩⟩ := h
  simp [advance_epoch, hap, hvap, hac, hvac, hb, processFinalizations]

/-- Iterating advance_epoch with only-current-vote registries pushes the
justification bits along the profile k ↦ [1 ≤ k, 2 ≤ k, 3 ≤ k, 4 ≤ k]. -/
theorem advanceRun_only_current_profile {C E : Type} (epoch : C → Nat)
    (calls : List (C × C × Registry C E)) :
    ∀ (s : JustificationProcessor C) (j : Nat),
      s.justification_bits = bitsProfile j →
      (∀ call ∈ calls, OnlyCurrentPasses call.2.2 call.1 call.2.1) →
      (advanceRun epoch s calls).justification_bits =
        bitsProfile (j + calls.length) := by
  induction calls with
  | nil =>
    intro s j hb hall
    simpa [advanceRun] using hb
  | cons c cs ih =>
    intro s j hb hall
    have hstep := advance_only_current_step epoch s c.1 c.2.1 c.2.2
      (hall c (List.mem_cons_self c cs)) _ _ _ _ (by simpa [bitsProfile] using hb)
    have hb1 : (advance_epoch epoch s c.1 c.2.1 c.2.2).1.justification_bits =
        bitsProfile (j + 1) := by
      rw [hstep]
      simp only [bitsProfile, List.cons.injEq, and_true]
      exact ⟨(decide_eq_true (by omega)).symm,
        decide_eq_decide.mpr (by omega),
        decide_eq_decide.mpr (by omega),
        decide_eq_decide.mpr (by omega)⟩
    have htail := ih (advance_epoch epoch s c.1 c.2.1 c.2.2).1 (j + 1) hb1
      (fun call hc => hall call (List.mem_cons_of_mem _ hc))
    simp only [advanceRun, List.foldl_cons] at htail ⊢
    rw [htail]
    simp only [List.length_cons]
    congr 1
    omega

/-- Claim C1 (amended): starting from all-false justification bits, if every
advance_epoch call has a failing previous-epoch vote and a passing
current-epoch vote, then after the k-th call the bits equal bitsProfile k
(so they are [true,false,false,false] exactly after the first call), and
finalized_checkpoint is unchanged by the first call.  Later calls may update
finalized_checkpoint (rule FF-4), as the counterexample shows. -/
theorem ffg_only_current_amended {C E : Type} (epoch : C → Nat)
    (s0 : JustificationProcessor C) (calls : List (C × C × Registry C E))
    (hbits : s0.justification_bits = [false, false, false, false])
    (hall : ∀ call ∈ calls, OnlyCurrentPasses call.2.2 call.1 call.2.1) :
    (∀ k, k ≤ calls.length →
      (advanceRun epoch s0 (calls.take k)).justification_bits = bitsProfile k) ∧
    (1 ≤ calls.length →
      (advanceRun epoch s0 (calls.take 1)).finalized_checkpoint =
        s0.finalized_checkpoint) := by
  constructor
  · intro k hk
    have := advanceRun_only_current_profile epoch (calls.take k) s0 0
      (by simpa [bitsProfile] using hbits)
      (fun call hc => hall call (List.take_subset k calls hc))
    simpa [List.length_take, Nat.min_eq_left hk] using this
  · intro hlen
    match calls, hall with
    | c :: cs, hall =>
      simp only [List.take_succ_cons, List.take_zero, advanceRun, List.foldl_cons,
        List.foldl_nil]
      exact advance_only_current_fin_zero epoch s0 c.1 c.2.1 c.2.2
        (hall c (List.mem_cons_self c cs)) hbits

/-- Registry that makes exactly the checkpoint k pass the vote test (balance 3
of total 3) and every other checkpoint fail (balance 0). -/
def onlyCurrentReg (k : Nat) : Registry Nat Unit :=
  ⟨3, fun c => Except.ok (if c = k then 3 else 0)⟩

/-- Two epoch advances (to epoch 1, then epoch 2) in which only the
current-epoch vote ever passes. -/
def onlyCurrentCalls : List (Nat × Nat × Registry Nat Unit) :=
  [(0, 1, onlyCurrentReg 1), (1, 2, onlyCurrentReg 2)]

/-- Claim C1 fails on the code: with only the current-epoch vote passing in
both of two consecutive advances from genesis, the bits after the second call
are [true,true,false,false] (not [true,false,false,false]) and
finalized_checkpoint has changed (rule FF-4 fires). -/
theorem ffg_only_current_counterexample :
    OnlyCurrentPasses (onlyCurrentReg 1) 0 1 ∧
    OnlyCurrentPasses (onlyCurrentReg 2) 1 2 ∧
    (advanceRun (fun c => c) (genesisProcessor 0) onlyCurrentCalls).justification_bits
      = [true, true, false, false] ∧
    (advanceRun (fun c => c) (genesisProcessor 0) onlyCurrentCalls).finalized_checkpoint
      ≠ (genesisProcessor (0 : Nat)).finalized_checkpoint := by
  refine ⟨⟨⟨0, rfl, by decide⟩, ⟨3, rfl, by decide⟩⟩,
    ⟨⟨0, rfl, by decide⟩, ⟨3, rfl, by decide⟩⟩, by decide, by decide⟩

/-- Claim C2 (amended): when the first registry lookup of advance_epoch fails,
the error is returned, current_justified_checkpoint and finalized_checkpoint
are unmodified, but previous_justified_checkpoint has already been shifted to
the old current_justified_checkpoint and the justification bits have already
been rotated to [false, old0, old1, old2]. -/
theorem ffg_error_first_lookup_amended {C E : Type} (epoch : C → Nat)
    (s : JustificationProcessor C) (prev cur : C) (reg : Registry C E) (e : E)
    (h : reg.attesting_target_balance prev = .error e) :
    advance_epoch epoch s prev cur reg =
      ({ s with
          previous_justified_checkpoint := s.current_justified_checkpoint,
          justification_bits := false :: s.justification_bits.take 3 },
        some e) := by
  simp [advance_epoch, h]

/-- Registry whose attesting_target_balance lookup always fails. -/
def errRegistry : Registry Nat Unit := ⟨3, fun _ => Except.error ()⟩

/-- Claim C2 fails on the code: when the first lookup errors, the returned
state has rotated justification bits and a shifted previous justified
checkpoint, so the processor state is not left unmodified. -/
theorem ffg_error_first_lookup_counterexample :
    errRegistry.attesting_target_balance 0 = Except.error () ∧
    (advance_epoch (fun c : Nat => c)
      ⟨[true, false, false, false], 1, 0, 0⟩ 0 2 errRegistry).2 = some () ∧
    (advance_epoch (fun c : Nat => c)
      ⟨[true, false, false, false], 1, 0, 0⟩ 0 2 errRegistry).1.justification_bits
      ≠ [true, false, false, false] ∧
    (advance_epoch (fun c : Nat => c)
      ⟨[true, false, false, false], 1, 0, 0⟩ 0 2 errRegistry).1.previous_justified_checkpoint
      ≠ 0 := by
  exact ⟨rfl, by decide, by decide, by decide⟩

/-- Witness for the amended claim C2 at a concrete state and registry. -/
theorem ffg_error_first_lookup_amended_witness :
    advance_epoch (fun c : Nat => c)
      ⟨[true, false, false, false], 1, 0, 0⟩ 0 2 errRegistry =
      (⟨[false, true, false, false], 1, 1, 0⟩, some ()) :=
  (ffg_error_first_lookup_amended (fun c : Nat => c)
    ⟨[true, false, false, false], 1, 0, 0⟩ 0 2 errRegistry () rfl).trans
    (by decide)

/-- Claim C4: a successful advance_epoch call (both registry lookups return
ok) first rotates the bits toward the past and ends with bit 0 set iff the
current-epoch vote test passed; bits [b0,b1,b2,b3] become
[currentVote, b0 || previousVote, b1, b2], so bit 0 is true only if the
current-epoch vote test passed on that call. -/
theorem ffg_rotation_and_bit0 {C E : Type} (epoch : C → Nat)
    (s : JustificationProcessor C) (prev cur : C) (reg : Registry C E)
    (b0 b1 b2 b3 : Bool) (hb : s.justification_bits = [b0, b1, b2, b3])
    (ap ac : Nat)
    (hp : reg.attesting_target_balance prev = .ok ap)
    (hc : reg.attesting_target_balance cur = .ok ac) :
    (advance_epoch epoch s prev cur reg).2 = none ∧
    (advance_epoch epoch s prev cur reg).1.justification_bits =
      [voteTest ac reg.total_active_balance,
       b0 || voteTest ap reg.total_active_balance, b1, b2] ∧
    ((advance_epoch epoch s prev cur reg).1.justification_bits.getD 0 false = true →
      voteTest ac reg.total_active_balance = true) := by
  have hbits : (advance_epoch epoch s prev cur reg).1.justification_bits =
      [voteTest ac reg.total_active_balance,
       b0 || voteTest ap reg.total_active_balance, b1, b2] := by
    by_cases h1 : voteTest ap reg.total_active_balance <;>
      by_cases h2 : voteTest ac reg.total_active_balance <;>
      simp [advance_epoch, hp, hc, hb, h1, h2,
        processFinalizations_justification_bits]
  refine ⟨by simp [advance_epoch, hp, hc], hbits, ?_⟩
  rw [hbits]
  intro h
  simpa using h

/-- Witness for claim C4 at a concrete state and registry (previous vote
fails, current vote passes). -/
theorem ffg_rotation_and_bit0_witness :
    (advance_epoch (fun c : Nat => c)
      ⟨[false, true, true, false], 5, 4, 3⟩ 0 2 (onlyCurrentReg 2)).2 = none ∧
    (advance_epoch (fun c : Nat => c)
      ⟨[false, true, true, false], 5, 4, 3⟩ 0 2 (onlyCurrentReg 2)).1.justification_bits =
      [voteTest 3 (onlyCurrentReg 2).total_active_balance,
       false || voteTest 0 (onlyCurrentReg 2).total_active_balance, true, true] ∧
    ((advance_epoch (fun c : Nat => c)
      ⟨[false, true, true, false], 5, 4, 3⟩ 0 2 (onlyCurrentReg 2)).1.justification_bits.getD 0 false = true →
      voteTest 3 (onlyCurrentReg 2).total_active_balance = true) :=
  ffg_rotation_and_bit0 (fun c : Nat => c)
    ⟨[false, true, true, false], 5, 4, 3⟩ 0 2 (onlyCurrentReg 2)
    false true true false rfl 0 3 rfl rfl

/-- Claim C5 (amended): the vote comparison is carried out in u64 with
wrap-around; it agrees with exact unbounded arithmetic exactly when both
products attesting * 3 and total * 2 fit in 64 bits. -/
theorem voteTest_exact_amended (a t : Nat) (ha : a * 3 < u64Mod)
    (ht : t * 2 < u64Mod) :
    (voteTest a t = true) ↔ 3 * a ≥ 2 * t := by
  unfold voteTest
  rw [Nat.mod_eq_of_lt ha, Nat.mod_eq_of_lt ht]
  simp only [decide_eq_true_eq]
  omega

/-- Registry exhibiting the u64 overflow of the vote-test multiplication. -/
def overflowRegistry : Registry Nat Unit :=
  ⟨10, fun _ => Except.ok 6148914691236517206⟩

/-- Claim C5 fails on the code: at attesting balance 6148914691236517206 and
total balance 10, the u64 product attesting * 3 wraps to 2, the vote test
comes out false although exact arithmetic yields true, and advance_epoch
leaves the justification bits unset. -/
theorem voteTest_overflow_counterexample :
    voteTest 6148914691236517206 10 = false ∧
    3 * 6148914691236517206 ≥ 2 * 10 ∧
    (advance_epoch (fun c : Nat => c) (genesisProcessor 0) 0 1
      overflowRegistry).1.justification_bits = [false, false, false, false] := by
  exact ⟨by decide, by decide, by decide⟩

/-- Witness for the amended claim C5 at small balances. -/
theorem voteTest_exact_amended_witness :
    (voteTest 5 5 = true) ↔ 3 * 5 ≥ 2 * 5 :=
  voteTest_exact_amended 5 5 (by decide) (by decide)

/-- The first advance_epoch from the genesis processor under a failing
previous-epoch vote and a passing current-epoch vote yields exactly the state
with bits [true,false,false,false], the current checkpoint justified, and the
genesis checkpoint still both previous-justified and finalized. -/
theorem advance_only_current_genesis {C E : Type} (epoch : C → Nat)
    (c0 prev cur : C) (reg : Registry C E)
    (h : OnlyCurrentPasses reg prev cur) :
    (advance_epoch epoch (genesisProcessor c0) prev cur reg).1 =
      ⟨[true, false, false, false], cur, c0, c0⟩ := by
  obtain ⟨⟨ap, hap, hvap⟩, ⟨ac, hac, hvac⟩⟩ := h
  simp [advance_epoch, genesisProcessor, hap, hvap, hac, hvac,
    processFinalizations]

/-- Claim C3: from genesis at epoch 0, advance to epoch 1 with only the
current vote passing, then to epoch 2 with both votes passing; the second
call finalizes the epoch-1 checkpoint through rule FF-4. -/
theorem ffg_ff4_finalization {C E : Type} (epoch : C → Nat)
    (c0 prev1 cp1 prev2 cp2 : C) (reg1 reg2 : Registry C E)
    (h0 : epoch c0 = 0) (h1 : epoch cp1 = 1) (h2 : epoch cp2 = 2)
    (hc1 : OnlyCurrentPasses reg1 prev1 cp1)
    (hc2 : BothPass reg2 prev2 cp2) :
    epoch ((advance_epoch epoch
        (advance_epoch epoch (genesisProcessor c0) prev1 cp1 reg1).1
        prev2 cp2 reg2).1.finalized_checkpoint) = 1 := by
  rw [advance_only_current_genesis epoch c0 prev1 cp1 reg1 hc1]
  obtain ⟨⟨ap, hap, hvap⟩, ⟨ac, hac, hvac⟩⟩ := hc2
  have hmod : (1 + 1) % u64Mod = 2 := by decide
  simp [advance_epoch, hap, hvap, hac, hvac, processFinalizations, h1, h2,
    hmod]

/-- Registry under which every checkpoint passes the vote test. -/
def bothPassRegistry : Registry Nat Unit := ⟨3, fun _ => Except.ok 3⟩

/-- Witness for claim C3 at concrete checkpoints 0, 1, 2. -/
theorem ffg_ff4_finalization_witness :
    (fun c : Nat => c) ((advance_epoch (fun c : Nat => c)
        (advance_epoch (fun c : Nat => c) (genesisProcessor 0) 0 1
          (onlyCurrentReg 1)).1
        1 2 bothPassRegistry).1.finalized_checkpoint) = 1 :=
  ffg_ff4_finalization (fun c : Nat => c) 0 0 1 1 2 (onlyCurrentReg 1)
    bothPassRegistry rfl rfl rfl
    ⟨⟨0, rfl, by decide⟩, ⟨3, rfl, by decide⟩⟩
    ⟨⟨3, rfl, by decide⟩, ⟨3, rfl, by decide⟩⟩

/-- Witness for the amended claim C1 at the two concrete calls. -/
theorem ffg_only_current_amended_witness :
    (advanceRun (fun c : Nat => c) (genesisProcessor 0)
      (onlyCurrentCalls.take 2)).justification_bits = bitsProfile 2 ∧
    (advanceRun (fun c : Nat => c) (genesisProcessor 0)
      (onlyCurrentCalls.take 1)).finalized_checkpoint =
      (genesisProcessor (0 : Nat)).finalized_checkpoint := by
  have h := ffg_only_current_amended (fun c : Nat => c) (genesisProcessor 0)
    onlyCurrentCalls rfl
    (by
      intro call hc
      simp only [onlyCurrentCalls, List.mem_cons, List.mem_singleton,
        List.not_mem_nil, or_false] at hc
      rcases hc with rfl | rfl
      · exact ⟨⟨0, rfl, by decide⟩, ⟨3, rfl, by decide⟩⟩
      · exact ⟨⟨0, rfl, by decide⟩, ⟨3, rfl, by decide⟩⟩)
  exact ⟨h.1 2 (by decide), h.2 (by decide)⟩

/-- Error type of the SSZ codec, from the ssz crate. -/
inductive SszError
  | InvalidLength
  | IncorrectSize
  | InvalidOffset
  | Corrupted
deriving DecidableEq

/-- One iteration of the bitvector encoding loop from fixed.rs:
bytes[i / 8] |= (bit as u8) << (i % 8).  Values stay below 256 because the
shift distance is below 8, so the u8 arithmetic never truncates. -/
def encodeStep (bs : List Bool) (bytes : List Nat) (i : Nat) : List Nat :=
  bytes.set (i / 8)
    (bytes.getD (i / 8) 0 ||| ((if bs.getD i false then 1 else 0) <<< (i % 8)))

/-- Encoding of a fixed boolean vector, from the Encode impl for
CompactRef of GenericArray bool in fixed.rs lines 114-126: a zeroed buffer of
(len + 7) / 8 bytes filled LSB-first. -/
def bitvectorEncode (bs : List Bool) : List Nat :=
  (List.range bs.length).foldl (encodeStep bs)
    (List.replicate ((bs.length + 7) / 8) 0)

/-- Bit read of the bitvector decoding loop from fixed.rs:
value[i / 8] & (1 << (i % 8)) != 0. -/
def decodeBit (value : List Nat) (i : Nat) : Bool :=
  (value.getD (i / 8) 0 &&& (1 <<< (i % 8))) != 0

/-- Decoding loop of the Decode impl for Compact of GenericArray bool in
fixed.rs lines 140-150: for each target index the byte index is bounds
checked, then the bit is read; i is the next index, the second argument the
number of indices still to read. -/
def bitvectorDecodeLoop (value : List Nat) : Nat → Nat → Except SszError (List Bool)
  | _, 0 => Except.ok []
  | i, k + 1 =>
    if value.length ≤ i / 8 then Except.error SszError.IncorrectSize
    else
      match bitvectorDecodeLoop value (i + 1) k with
      | Except.error e => Except.error e
      | Except.ok rest => Except.ok (decodeBit value i :: rest)

/-- Decoding of a fixed boolean vector of declared length len. -/
def bitvectorDecode (len : Nat) (value : List Nat) : Except SszError (List Bool) :=
  bitvectorDecodeLoop value 0 len

/-- The encoding fold preserves the buffer length. -/
theorem encodeFoldl_length (bs : List Bool) (l : List Nat) (init : List Nat) :
    (l.foldl (encodeStep bs) init).length = init.length := by
  induction l generalizing init with
  | nil => rfl
  | cons x xs ih =>
    rw [List.foldl_cons, ih]
    simp [encodeStep]

/-- A 0-or-1 value shifted left by s has no bit set at any position other
than s. -/
theorem testBit_bitShift_ne (c : Bool) (s k : Nat) (h : k ≠ s) :
    Nat.testBit ((if c then 1 else 0) <<< s) k = false := by
  cases c
  · simp
  · simp only [if_pos, Nat.testBit_shiftLeft]
    by_cases hge : k ≥ s
    · have ht : k - s ≠ 0 := by omega
      have h1 : Nat.testBit 1 (k - s) = false :=
        Nat.testBit_lt_two_pow (by
          have : 2 ^ 1 ≤ 2 ^ (k - s) :=
            Nat.pow_le_pow_right (by omega) (by omega)
          omega)
      simp [h1]
    · simp [hge]

/-- Bit-level invariant of the encoding fold over the first m input bits:
bit k of buffer byte j is set iff k < 8, the source index 8j + k is below m,
and the source bit is set. -/
theorem encodeFoldl_testBit (bs : List Bool) :
    ∀ m, m ≤ bs.length → ∀ j k,
      Nat.testBit (((List.range m).foldl (encodeStep bs)
          (List.replicate ((bs.length + 7) / 8) 0)).getD j 0) k =
        (decide (k < 8) && decide (8 * j + k < m) && bs.getD (8 * j + k) false) := by
  intro m
  induction m with
  | zero =>
    intro _ j k
    simp [List.getD_eq_getElem?_getD, List.getElem?_replicate]
    split_ifs <;> simp
  | succ m ih =>
    intro hm j k
    rw [List.range_succ, List.foldl_append, List.foldl_cons, List.foldl_nil]
    have hBlen : ((List.range m).foldl (encodeStep bs)
        (List.replicate ((bs.length + 7) / 8) 0)).length = (bs.length + 7) / 8 := by
      rw [encodeFoldl_length, List.length_replicate]
    have hm8 : m / 8 < ((List.range m).foldl (encodeStep bs)
        (List.replicate ((bs.length + 7) / 8) 0)).length := by
      rw [hBlen]; omega
    by_cases hj : j = m / 8
    · subst hj
      have hset : (encodeStep bs ((List.range m).foldl (encodeStep bs)
            (List.replicate ((bs.length + 7) / 8) 0)) m).getD (m / 8) 0 =
          ((List.range m).foldl (encodeStep bs)
            (List.replicate ((bs.length + 7) / 8) 0)).getD (m / 8) 0 |||
            ((if bs.getD m false then 1 else 0) <<< (m % 8)) := by
        simp [encodeStep, List.getD_eq_getElem?_getD, List.getElem?_set_self hm8]
      rw [hset, Nat.testBit_or, ih (Nat.le_of_succ_le hm) (m / 8) k]
      by_cases hk8 : k < 8
      · by_cases hkm : k = m % 8
        · subst hkm
          have hidx : 8 * (m / 8) + m % 8 = m := by omega
          rw [hidx]
          have hlt : decide (m < m) = false := by simp
          have hlt1 : decide (m < m + 1) = true := by simp
          rw [hlt, hlt1]
          cases hbit : bs.getD m false <;>
            simp [Nat.testBit_shiftLeft, Nat.testBit_two_pow]
          omega
        · have hidx : 8 * (m / 8) + k ≠ m := by omega
          rw [testBit_bitShift_ne (bs.getD m false) (m % 8) k hkm, Bool.or_false]
          have : decide (8 * (m / 8) + k < m + 1) = decide (8 * (m / 8) + k < m) := by
            exact decide_eq_decide.mpr (by omega)
          rw [this]
      · have hk : decide (k < 8) = false := by simpa using hk8
        rw [testBit_bitShift_ne (bs.getD m false) (m % 8) k (by omega)]
        simp [hk]
    · have hne : (encodeStep bs ((List.range m).foldl (encodeStep bs)
            (List.replicate ((bs.length + 7) / 8) 0)) m).getD j 0 =
          ((List.range m).foldl (encodeStep bs)
            (List.replicate ((bs.length + 7) / 8) 0)).getD j 0 := by
        simp [encodeStep, List.getD_eq_getElem?_getD,
          List.getElem?_set_ne (fun h => hj h.symm)]
      rw [hne, ih (Nat.le_of_succ_le hm) j k]
      by_cases hk8 : k < 8
      · have : decide (8 * j + k < m) = decide (8 * j + k < m + 1) := by
          refine decide_eq_decide.mpr ?_
          constructor
          · omega
          · intro h
            rcases Nat.lt_succ_iff_lt_or_eq.mp h with h | h
            · exact h
            · exact absurd (by omega : j = m / 8) hj
        rw [this]
      · have hk : decide (k < 8) = false := by simpa using hk8
        simp [hk]

/-- Claim C7: encoding a boolean vector yields exactly (N + 7) / 8 bytes with
bit i stored LSB-first in byte i / 8 at bit position i % 8. -/
theorem bitvectorEncode_layout (bs : List Bool) :
    (bitvectorEncode bs).length = (bs.length + 7) / 8 ∧
    ∀ i, i < bs.length →
      Nat.testBit ((bitvectorEncode bs).getD (i / 8) 0) (i % 8) =
        bs.getD i false := by
  constructor
  · unfold bitvectorEncode
    rw [encodeFoldl_length, List.length_replicate]
  · intro i hi
    have h := encodeFoldl_testBit bs bs.length le_rfl (i / 8) (i % 8)
    unfold bitvectorEncode
    rw [h]
    have hidx : 8 * (i / 8) + i % 8 = i := by omega
    rw [hidx]
    have h1 : decide (i % 8 < 8) = true := by simp [Nat.mod_lt]
    have h2 : decide (i < bs.length) = true := by simpa using hi
    rw [h1, h2]
    simp

/-- Witness for claim C7 on the vector [true, false, true]. -/
theorem bitvectorEncode_layout_witness :
    (bitvectorEncode [true, false, true]).length = 1 ∧
    Nat.testBit ((bitvectorEncode [true, false, true]).getD 0 0) 2 = true := by
  have h := bitvectorEncode_layout [true, false, true]
  exact ⟨h.1.trans (by decide), (h.2 2 (by decide)).trans (by decide)⟩

/-- When every target bit index has an in-range byte, the decoding loop reads
the k bits starting at index i. -/
theorem bitvectorDecodeLoop_ok (value : List Nat) :
    ∀ (k i : Nat), (∀ t, t < k → (i + t) / 8 < value.length) →
      bitvectorDecodeLoop value i k =
        Except.ok ((List.range k).map (fun t => decodeBit value (i + t))) := by
  intro k
  induction k with
  | zero =>
    intro i h
    simp [bitvectorDecodeLoop]
  | succ k ih =>
    intro i h
    have h0 : i / 8 < value.length := by simpa using h 0 (Nat.succ_pos k)
    rw [bitvectorDecodeLoop, if_neg (by omega)]
    rw [ih (i + 1) (fun t ht => by
      have := h (t + 1) (by omega)
      have heq : i + (t + 1) = i + 1 + t := by omega
      rwa [heq] at this)]
    rw [List.range_succ_eq_map, List.map_cons, List.map_map]
    have hz : decodeBit value (i + 0) = decodeBit value i := by rw [Nat.add_zero]
    have hcomp : ((fun t => decodeBit value (i + t)) ∘ Nat.succ) =
        (fun t => decodeBit value (i + 1 + t)) := by
      funext t
      simp only [Function.comp]
      congr 1
      omega
    rw [hz, hcomp]

/-- If some target bit index maps to an out-of-range byte, the decoding loop
fails with IncorrectSize. -/
theorem bitvectorDecodeLoop_error (value : List Nat) :
    ∀ (k i : Nat), (∃ t, t < k ∧ value.length ≤ (i + t) / 8) →
      bitvectorDecodeLoop value i k = Except.error SszError.IncorrectSize := by
  intro k
  induction k with
  | zero =>
    rintro i ⟨t, ht, _⟩
    omega
  | succ k ih =>
    rintro i ⟨t, ht, hlen⟩
    rw [bitvectorDecodeLoop]
    by_cases h0 : value.length ≤ i / 8
    · rw [if_pos h0]
    · rw [if_neg h0]
      have htail : bitvectorDecodeLoop value (i + 1) k =
          Except.error SszError.IncorrectSize := by
        apply ih
        rcases t with _ | t
        · exact absurd (by simpa using hlen) h0
        · refine ⟨t, by omega, ?_⟩
          have heq : i + 1 + t = i + (t + 1) := by omega
          rwa [heq]
      rw [htail]

/-- Claim C6 (amended): for a declared bit length L, decode accepts exactly
the byte strings with at least (L + 7) / 8 bytes; on a byte string with
exactly (L + 7) / 8 bytes, all below 256, whose padding bits beyond bit L are
zero, decode succeeds and re-encoding the decoded bits reproduces the input.
Longer inputs and nonzero padding are accepted (and then not reproduced by
encode), contrary to the claim; the counterexample exhibits this. -/
theorem bitvector_roundtrip_amended (L : Nat) (b : List Nat)
    (hlen : b.length = (L + 7) / 8)
    (hbytes : ∀ x ∈ b, x < 256)
    (hpad : ∀ i, i < 8 * b.length → L ≤ i →
      Nat.testBit (b.getD (i / 8) 0) (i % 8) = false) :
    bitvectorDecode L b =
      Except.ok ((List.range L).map (fun t => decodeBit b t)) ∧
    bitvectorEncode ((List.range L).map (fun t => decodeBit b t)) = b := by
  have hdec : bitvectorDecode L b =
      Except.ok ((List.range L).map (fun t => decodeBit b t)) := by
    unfold bitvectorDecode
    rw [bitvectorDecodeLoop_ok b L 0 (fun t ht => by
      rw [hlen]
      omega)]
    simp
  refine ⟨hdec, ?_⟩
  set ds := (List.range L).map (fun t => decodeBit b t) with hds
  have hdslen : ds.length = L := by
    rw [hds, List.length_map, List.length_range]
  have hdsget : ∀ t, t < L → ds.getD t false = decodeBit b t := by
    intro t ht
    rw [hds, List.getD_eq_getElem?_getD, List.getElem?_map,
      List.getElem?_range ht]
    rfl
  have hbit : ∀ n, decodeBit b n = Nat.testBit (b.getD (n / 8) 0) (n % 8) := by
    intro n
    unfold decodeBit
    rw [Nat.shiftLeft_eq, Nat.one_mul, Nat.and_two_pow]
    cases hq : Nat.testBit (b.getD (n / 8) 0) (n % 8) <;>
      simp [Nat.pos_iff_ne_zero, Nat.pos_pow_of_pos]
  have henclen : (bitvectorEncode ds).length = b.length := by
    unfold bitvectorEncode
    rw [encodeFoldl_length, List.length_replicate, hdslen, hlen]
  have hgetD : ∀ j, j < b.length → (bitvectorEncode ds).getD j 0 = b.getD j 0 := by
    intro j hj
    apply Nat.eq_of_testBit_eq
    intro k
    have henc := encodeFoldl_testBit ds ds.length le_rfl j k
    unfold bitvectorEncode
    rw [henc, hdslen]
    by_cases hk8 : k < 8
    · by_cases hL : 8 * j + k < L
      · have h1 : decide (k < 8) = true := by simpa using hk8
        have h2 : decide (8 * j + k < L) = true := by simpa using hL
        rw [h1, h2, hdsget (8 * j + k) hL, hbit]
        have hq1 : (8 * j + k) / 8 = j := by omega
        have hq2 : (8 * j + k) % 8 = k := by omega
        rw [hq1, hq2]
        simp
      · have h2 : decide (8 * j + k < L) = false := by simpa using hL
        rw [h2]
        have hp := hpad (8 * j + k) (by omega) (by omega)
        have hq1 : (8 * j + k) / 8 = j := by omega
        have hq2 : (8 * j + k) % 8 = k := by omega
        rw [hq1, hq2] at hp
        rw [hp]
        simp
    · have h1 : decide (k < 8) = false := by simpa using hk8
      rw [h1]
      have hb256 : b.getD j 0 < 256 := by
        have hmem : b.getD j 0 ∈ b := by
          rw [List.getD_eq_getElem?_getD, List.getElem?_eq_getElem hj]
          exact List.getElem_mem hj
        exact hbytes _ hmem
      have : Nat.testBit (b.getD j 0) k = false := by
        apply Nat.testBit_lt_two_pow
        calc b.getD j 0 < 256 := hb256
        _ = 2 ^ 8 := by norm_num
        _ ≤ 2 ^ k := Nat.pow_le_pow_right (by omega) (by omega)
      rw [this]
      simp
  apply List.ext_getElem
  · exact henclen
  · intro j h1 h2
    have := hgetD j h2
    rwa [List.getD_eq_getElem?_getD, List.getD_eq_getElem?_getD,
      List.getElem?_eq_getElem h1, List.getElem?_eq_getElem h2] at this

/-- Claim C6 fails on the code: the decoder accepts a byte string longer than
needed and one with nonzero padding bits, and in both cases the round trip
encode after decode does not reproduce the input. -/
theorem bitvector_roundtrip_counterexample :
    bitvectorDecode 1 [1, 255] = Except.ok [true] ∧
    bitvectorEncode [true] = [1] ∧
    bitvectorEncode [true] ≠ [1, 255] ∧
    bitvectorDecode 1 [3] = Except.ok [true] ∧
    bitvectorEncode [true] ≠ [3] := by
  exact ⟨rfl, rfl, by decide, rfl, by decide⟩

/-- Witness for the amended claim C6 on the byte string [5] at bit length 3. -/
theorem bitvector_roundtrip_amended_witness :
    bitvectorDecode 3 [5] =
      Except.ok ((List.range 3).map (fun t => decodeBit [5] t)) ∧
    bitvectorEncode ((List.range 3).map (fun t => decodeBit [5] t)) = [5] :=
  bitvector_roundtrip_amended 3 [5] rfl (by decide) (by decide)

/-- Raw 32-byte hash value, modelled as a byte list. -/
def H256 : Type := List Nat

/-- Raw 96-byte BLS signature value, modelled as a byte list. -/
def Signature : Type := List Nat

/-- Modelled from the spec: Signature::default() is the 96 zero bytes (the
primitives module defining Signature is not among the provided sources). -/
def signatureDefault : Signature := List.replicate 96 0

/-- Beacon block from block.rs.  The body type and the field types it
aggregates live in modules that are not among the provided sources, so the
body is an abstract type parameter. -/
structure BeaconBlock (Body : Type) where
  slot : Nat
  previous_block_root : H256
  state_root : H256
  body : Body
  signature : Signature

/-- Beacon block header from block.rs. -/
structure BeaconBlockHeader where
  slot : Nat
  previous_block_root : H256
  state_root : H256
  block_body_root : H256
  signature : Signature

/-- Shallow embedding of BeaconBlockHeader::with_state_root_no_signature from
block.rs lines 71-83; the tree hasher capability H is passed as the function
hash. -/
def with_state_root_no_signature {Body : Type} (hash : Body → H256)
    (block : BeaconBlock Body) (state_root : H256) : BeaconBlockHeader :=
  { slot := block.slot
    previous_block_root := block.previous_block_root
    state_root := state_root
    block_body_root := hash block.body
    signature := signatureDefault }

/-- Claim C8: the derived header copies slot and previous_block_root from the
block, takes the supplied state root, tree-hashes the block body for
block_body_root, and stubs the signature with the 96 zero bytes. -/
theorem with_state_root_no_signature_spec {Body : Type} (hash : Body → H256)
    (block : BeaconBlock Body) (state_root : H256) :
    (with_state_root_no_signature hash block state_root).slot = block.slot ∧
    (with_state_root_no_signature hash block state_root).previous_block_root =
      block.previous_block_root ∧
    (with_state_root_no_signature hash block state_root).state_root =
      state_root ∧
    (with_state_root_no_signature hash block state_root).block_body_root =
      hash block.body ∧
    (with_state_root_no_signature hash block state_root).signature =
      List.replicate 96 0 :=
  ⟨rfl, rfl, rfl, rfl, rfl⟩

/-- Modelled from the spec: the SSZ-derive test enum (variant A with declared
index 15, B and C with implicit indices 1 and 2); the derive macro emitting
the codec is not among the provided sources, only its tests are. -/
inductive EnumType
  | A
  | B (x y : Nat)
  | C (a b : Nat)
deriving DecidableEq

/-- Big-endian 4-byte encoding of a u32, as exercised by the ssz-derive test
vectors. -/
def u32beBytes (x : Nat) : List Nat :=
  [x / 2 ^ 24 % 256, x / 2 ^ 16 % 256, x / 2 ^ 8 % 256, x % 256]

/-- Big-endian 8-byte encoding of a u64, as exercised by the ssz-derive test
vectors. -/
def u64beBytes (x : Nat) : List Nat :=
  [x / 2 ^ 56 % 256, x / 2 ^ 48 % 256, x / 2 ^ 40 % 256, x / 2 ^ 32 % 256,
   x / 2 ^ 24 % 256, x / 2 ^ 16 % 256, x / 2 ^ 8 % 256, x % 256]

/-- Modelled from the spec: derived enum encoding writes the variant index as
one byte (15 for A by the explicit attribute, 1 for B, 2 for C) followed by
the encoded fields. -/
def enumTypeEncode : EnumType → List Nat
  | EnumType.A => [15]
  | EnumType.B x y => 1 :: (u32beBytes x ++ u64beBytes y)
  | EnumType.C a b => 2 :: (u32beBytes a ++ u64beBytes b)

/-- Big-endian 4-byte u32 reader. -/
def readU32be (l : List Nat) : Option (Nat × List Nat) :=
  match l with
  | a :: b :: c :: d :: rest =>
    some (a * 2 ^ 24 + b * 2 ^ 16 + c * 2 ^ 8 + d, rest)
  | _ => none

/-- Big-endian 8-byte u64 reader. -/
def readU64be (l : List Nat) : Option (Nat × List Nat) :=
  match l with
  | a :: b :: c :: d :: e :: f :: g :: h :: rest =>
    some (a * 2 ^ 56 + b * 2 ^ 48 + c * 2 ^ 40 + d * 2 ^ 32 +
      e * 2 ^ 24 + f * 2 ^ 16 + g * 2 ^ 8 + h, rest)
  | _ => none

/-- Modelled from the spec: derived enum decoding reads one index byte,
dispatches on the declared variant indices (15, 1, 2) and fails on any other
byte. -/
def enumTypeDecode (l : List Nat) : Option EnumType :=
  match l with
  | [] => none
  | b :: rest =>
    if b = 15 then some EnumType.A
    else if b = 1 then
      match readU32be rest with
      | none => none
      | some (x, rest2) =>
        match readU64be rest2 with
        | none => none
        | some (y, _) => some (EnumType.B x y)
    else if b = 2 then
      match readU32be rest with
      | none => none
      | some (a, rest2) =>
        match readU64be rest2 with
        | none => none
        | some (c, _) => some (EnumType.C a c)
    else none

/-- Claim C9: variant A with its declared index 15 encodes to the single byte
0x0f and decodes back from it; any single byte that is not a declared variant
index (15, 1 or 2) decodes to an error. -/
theorem enumType_explicit_index (b : Nat)
    (h15 : b ≠ 15) (h1 : b ≠ 1) (h2 : b ≠ 2) :
    enumTypeEncode EnumType.A = [15] ∧
    enumTypeDecode [15] = some EnumType.A ∧
    enumTypeDecode [b] = none := by
  refine ⟨rfl, rfl, ?_⟩
  simp [enumTypeDecode, h15, h1, h2, readU32be]

/-- Witness for claim C9 at the unknown index byte 0. -/
theorem enumType_explicit_index_witness :
    enumTypeEncode EnumType.A = [15] ∧
    enumTypeDecode [15] = some EnumType.A ∧
    enumTypeDecode [0] = none :=
  enumType_explicit_index 0 (by decide) (by decide) (by decide)

/-- Error type of the RocksDB chain backend (Corrupted and NotExist appear in
backend.rs; Io stands for the propagated database errors). -/
inductive RocksError
  | Corrupted
  | NotExist
  | Io
deriving DecidableEq

/-- Genesis block capability used by open_or_create: an identifier and an
optional parent identifier. -/
structure GenesisBlock (Id : Type) where
  id : Id
  parent_id : Option Id

/-- The backend value produced by open_or_create, reduced to the head and
genesis identifiers it records (the database handle is external state). -/
structure RocksBackend (Id : Type) where
  head : Id
  genesis : Id
deriving DecidableEq

/-- Possible outcomes of RocksBackend::open_or_create: a backend, an error,
or the panic of the assert on a genesis block with a parent. -/
inductive OpenOutcome (Id : Type)
  | ok (backend : RocksBackend Id)
  | err (e : RocksError)
  | panicked
deriving DecidableEq

/-- Shallow embedding of RocksBackend::open_or_create from backend.rs lines
181-234.  The results of fetch_head and fetch_genesis (whose definitions are
not among the provided sources) are passed in as the already-fetched optional
identifiers; the genesis closure result and the settlement commit result
(settlement.rs is not among the provided sources) are passed in as Except
values. -/
def open_or_create {Id State : Type} (head genesis : Option Id)
    (f : Except RocksError (GenesisBlock Id × State))
    (commitResult : Except RocksError Unit) : OpenOutcome Id :=
  match head, genesis with
  | some h, some g => OpenOutcome.ok ⟨h, g⟩
  | none, none =>
    match f with
    | Except.error e => OpenOutcome.err e
    | Except.ok (block, _state) =>
      match block.parent_id with
      | some _ => OpenOutcome.panicked
      | none =>
        match commitResult with
        | Except.error e => OpenOutcome.err e
        | Except.ok _ => OpenOutcome.ok ⟨block.id, block.id⟩
  | _, _ => OpenOutcome.err RocksError.Corrupted

/-- Claim C10: open_or_create returns Corrupted whenever exactly one of the
head and genesis identifiers is present, and a backend is constructed only
when both are present (recording them) or both are absent (recording the
identifier of the block produced by the genesis closure). -/
theorem open_or_create_spec {Id State : Type} (head genesis : Option Id)
    (f : Except RocksError (GenesisBlock Id × State))
    (commitResult : Except RocksError Unit) :
    (head.isSome ≠ genesis.isSome →
      open_or_create head genesis f commitResult =
        OpenOutcome.err RocksError.Corrupted) ∧
    (∀ b, open_or_create head genesis f commitResult = OpenOutcome.ok b →
      (∃ h g, head = some h ∧ genesis = some g ∧ b = ⟨h, g⟩) ∨
      (head = none ∧ genesis = none ∧
        ∃ block state, f = Except.ok (block, state) ∧
          b = ⟨block.id, block.id⟩)) := by
  constructor
  · intro hne
    cases head <;> cases genesis <;> simp_all [open_or_create]
  · intro b hb
    cases head with
    | some h =>
      cases genesis with
      | some g =>
        left
        refine ⟨h, g, rfl, rfl, ?_⟩
        simpa [open_or_create] using hb.symm
      | none => simp [open_or_create] at hb
    | none =>
      cases genesis with
      | some g => simp [open_or_create] at hb
      | none =>
        right
        refine ⟨rfl, rfl, ?_⟩
        cases hf : f with
        | error e => simp [open_or_create, hf] at hb
        | ok p =>
          obtain ⟨block, st⟩ := p
          cases hp : block.parent_id with
          | some q => simp [open_or_create, hf, hp] at hb
          | none =>
            cases hc : commitResult with
            | error e => simp [open_or_create, hf, hp, hc] at hb
            | ok u =>
              refine ⟨block, st, rfl, ?_⟩
              have := hb
              simp [open_or_create, hf, hp, hc] at this
              exact this.symm

/-- Genesis closure result used by the C10 witness: a parentless block with
identifier 0. -/
def genesisClosureOk : Except RocksError (GenesisBlock Nat × Unit) :=
  Except.ok (⟨0, none⟩, ())

/-- Successful settlement commit used by the C10 witness. -/
def commitOk : Except RocksError Unit := Except.ok ()

/-- Witness for claim C10: a present head with an absent genesis yields
Corrupted, and a fresh open constructs the backend from the genesis
closure. -/
theorem open_or_create_spec_witness :
    open_or_create (some 1) (none : Option Nat) genesisClosureOk commitOk =
      OpenOutcome.err RocksError.Corrupted ∧
    ((∃ h g, (none : Option Nat) = some h ∧ (none : Option Nat) = some g ∧
        (⟨0, 0⟩ : RocksBackend Nat) = ⟨h, g⟩) ∨
      ((none : Option Nat) = none ∧ (none : Option Nat) = none ∧
        ∃ block state, genesisClosureOk = Except.ok (block, state) ∧
          (⟨0, 0⟩ : RocksBackend Nat) = ⟨block.id, block.id⟩)) :=
  ⟨(open_or_create_spec (some 1) (none : Option Nat) genesisClosureOk
      commitOk).1 (by decide),
   (open_or_create_spec (none : Option Nat) (none : Option Nat)
      genesisClosureOk commitOk).2 ⟨0, 0⟩ rfl⟩


end Shasper
